import Mathlib

/-!
Verification development for the kalshi trading bot's market qualification
pipeline (`scanner.py`) and sniper execution loop (`whale.py`, `db.py`,
`sizing.py`, `ticker.py`, `ai.py`).

Conventions of the shallow embedding:
* prices are integer cents (`Int`), volumes are `Nat`;
* Python floats are modelled as exact rationals (`ℚ`);
* Python `None`-able values are `Option`;
* fallible external calls (network, exchange API) are `Except String`
  valued inputs supplied through an environment record;
* Python's stable `sorted` / `list.sort` is modelled by `stableSortBy`,
  a left-fold insertion sort that preserves the relative order of
  elements the comparison considers equal.
-/

/-- Stable insertion: walks past every element `y` with `le y x = true`,
so an element inserted later lands after earlier equal elements. -/

def stableInsert (le : α → α → Bool) (x : α) : List α → List α
  | [] => [x]
  | y :: ys => if le y x then y :: stableInsert le x ys else x :: y :: ys

/-- Stable sort (model of Python's stable `sorted(key=...)`): fold the input
left to right, inserting each element into the accumulated sorted list. -/

def stableSortBy (le : α → α → Bool) (l : List α) : List α :=
  l.foldl (fun acc x => stableInsert le x acc) []

/-! ## ASCII string helpers

Kernel-computable models of the Python string operations used by the bot
(`.upper()`, `.startswith()`, `in`, `.split(sep)`), working on the
character list underlying a `String`. -/

/-- Python `s.upper()` (ASCII). -/

def strUpper (s : String) : String := String.mk (s.data.map Char.toUpper)

/-- Python `s.startswith(pre)`. -/

def strStartsWith (s pre : String) : Bool := pre.data.isPrefixOf s.data

/-- Python `s.split(sep)` for a single-character separator. -/

def splitOnChar (c : Char) : List Char → List (List Char)
  | [] => [[]]
  | x :: xs =>
    let r := splitOnChar c xs
    if x = c then [] :: r
    else
      match r with
      | [] => [[x]]
      | h :: t => (x :: h) :: t

/-- Python `pat in s` (substring containment). -/

def listContainsSub (pat : List Char) : List Char → Bool
  | [] => pat.isPrefixOf []
  | x :: xs => pat.isPrefixOf (x :: xs) || listContainsSub pat xs

/-! ## Scanner embedding (`scanner.py`) -/

/-- A raw market quote, the field subset kept by `_fetch_all_markets`
(missing numeric fields default to 0).  `close_ts` stands for the parsed
`close_time` string: `none` models an unparseable/empty string, matching
`_parse_close_time` returning `None`. -/

structure Market where
  ticker : String
  event_ticker : String
  volume_24h : Nat
  volume : Nat
  open_interest : Nat
  yes_bid : Int
  yes_ask : Int
  no_bid : Int
  no_ask : Int
  close_ts : Option Int
deriving DecidableEq

/-- Model of `hours_until_close`: hours remaining until close, `none` if unknown,
clamped to `0` once the close time has passed. -/

def hours_until_close (now : Int) (close_ts : Option Int) : Option ℚ :=
  match close_ts with
  | none => none
  | some t => if t - now ≤ 0 then some 0 else some (((t - now : Int) : ℚ) / 3600)

/-- Model of `_assign_tier`: profitability bucket from the ask price. -/

def assign_tier (ask : Int) : Nat :=
  if ask ≥ 99 then 0
  else if ask = 98 then 1
  else if ask ≥ 96 then 2
  else 3

/-- Model of `_calc_spread_pct`: bid/ask spread as a percentage of the midpoint,
`0` when bid or ask is missing/zero or the book is crossed. -/

def calc_spread_pct (bid ask : Int) : ℚ :=
  if bid = 0 ∨ ask = 0 ∨ ask ≤ bid then 0
  else ((ask - bid : Int) : ℚ) / (((bid + ask : Int) : ℚ) / 2) * 100

/-- Python's `round(x, 2)` on the exact rational value (round to nearest,
`round` resolving halves upward; binary-float half-to-even artifacts are
not modelled). -/

def round2 (q : ℚ) : ℚ := (round (q * 100) : ℚ) / 100

/-- A scan result record (the dict appended in `scan`).  `dollar_rank`,
`qualified` and `fail_reasons` are filled by the ranking pass. -/

structure Rec where
  ticker : String
  event_ticker : String
  signal_side : String
  signal_price : Int
  signal_ask : Int
  volume_24h : Nat
  dollar_24h : Int
  volume : Nat
  open_interest : Nat
  yes_bid : Int
  no_bid : Int
  tier : Nat
  spread_pct : ℚ
  hours_left : Option ℚ
  dollar_rank : Nat
  qualified : Bool
  fail_reasons : List String
deriving DecidableEq

/-- Qualification thresholds (`QUALIFIED_*` constants in `scanner.py`). -/

def QUALIFIED_MIN_DOLLAR_24H : Int := 10000

def QUALIFIED_MAX_SPREAD_PCT : ℚ := 5

def QUALIFIED_TOP_N_DOLLAR : Nat := 200

def QUALIFIED_MAX_HOURS : ℚ := 24

/-- The per-market body of the `scan` loop after the prefix and volume
filters: infer a missing ask from the opposite bid, then emit a record for
whichever side's ask lies in `[min_price, 98]` (yes side checked first). -/

def scanRecOfMarket (minPrice now : Int) (m : Market) : Option Rec :=
  let yes_ask := if m.yes_ask = 0 ∧ m.no_bid ≠ 0 then 100 - m.no_bid else m.yes_ask
  let no_ask := if m.no_ask = 0 ∧ m.yes_bid ≠ 0 then 100 - m.yes_bid else m.no_ask
  let hrs := hours_until_close now m.close_ts
  if yes_ask ≠ 0 ∧ minPrice ≤ yes_ask ∧ yes_ask ≤ 98 then
    some
      { ticker := m.ticker
        event_ticker := m.event_ticker
        signal_side := "yes"
        signal_price := m.yes_bid
        signal_ask := yes_ask
        volume_24h := m.volume_24h
        dollar_24h := Int.fdiv ((m.volume_24h : Int) * yes_ask) 100
        volume := m.volume
        open_interest := m.open_interest
        yes_bid := m.yes_bid
        no_bid := m.no_bid
        tier := assign_tier yes_ask
        spread_pct := round2 (calc_spread_pct m.yes_bid yes_ask)
        hours_left := hrs
        dollar_rank := 0
        qualified := false
        fail_reasons := [] }
  else if no_ask ≠ 0 ∧ minPrice ≤ no_ask ∧ no_ask ≤ 98 then
    some
      { ticker := m.ticker
        event_ticker := m.event_ticker
        signal_side := "no"
        signal_price := m.no_bid
        signal_ask := no_ask
        volume_24h := m.volume_24h
        dollar_24h := Int.fdiv ((m.volume_24h : Int) * no_ask) 100
        volume := m.volume
        open_interest := m.open_interest
        yes_bid := m.yes_bid
        no_bid := m.no_bid
        tier := assign_tier no_ask
        spread_pct := round2 (calc_spread_pct m.no_bid no_ask)
        hours_left := hrs
        dollar_rank := 0
        qualified := false
        fail_reasons := [] }
  else none

/-- The event-ticker allow-list test (`ticker_prefixes`); an empty list
models Python's `None`/empty (no filtering), mirroring `if ticker_prefixes`. -/

def prefixOk (prefixes : List String) (m : Market) : Bool :=
  if prefixes.isEmpty then true
  else prefixes.any (fun p => strStartsWith (strUpper m.event_ticker) (strUpper p))

/-- Stages 1-3 of `scan`: sort all markets by 24h volume descending, keep
the `top_n` most active, filter by event prefix and minimum 24h volume,
then build the per-side records. -/

def scanRecords (minPrice : Int) (prefixes : List String) (minVolume topN : Nat)
    (now : Int) (ms : List Market) : List Rec :=
  let sortedMs := stableSortBy (fun a b => decide (b.volume_24h ≤ a.volume_24h)) ms
  let cands := sortedMs.take topN
  (cands.filter (fun m => prefixOk prefixes m ∧ minVolume ≤ m.volume_24h)).filterMap
    (scanRecOfMarket minPrice now)

/-- The comparison of the dollar-volume-descending sort: `a` may stay
before `b` when `a`'s dollar volume is at least `b`'s. -/

def dleRec (a b : Rec) : Bool := decide (b.dollar_24h ≤ a.dollar_24h)

/-- Stable sort of records by `dollar_24h` descending (`sorted(...,
key=lambda x: x["dollar_24h"], reverse=True)`). -/

def sortByDollarDesc (rs : List Rec) : List Rec :=
  stableSortBy dleRec rs

/-- The `dollar_ranks` dict comprehension: ticker of the i-th record of the
descending sort maps to rank `i+1`; a later binding overwrites an earlier
one, as in a Python dict. -/

def rankMap (rs : List Rec) : List (String × Nat) :=
  ((sortByDollarDesc rs).enum).map (fun ir => (ir.2.ticker, ir.1 + 1))

/-- Python dict lookup on an association list where later bindings win. -/

def dictLookup (m : List (String × Nat)) (k : String) : Nat :=
  match m.reverse.lookup k with
  | some v => v
  | none => 0

/-- The qualification pass for one record, given its dollar rank: a tier-0
record short-circuits with `fail_reasons = ["tier0"]`; otherwise each of
the four remaining predicates contributes its code when it fails. -/

def qualifyRec (rank : Nat) (r : Rec) : Rec :=
  if ¬ 0 < r.tier then
    { r with dollar_rank := rank, qualified := false, fail_reasons := ["tier0"] }
  else
    let is_spread : Bool := decide (r.spread_pct ≤ QUALIFIED_MAX_SPREAD_PCT)
    let is_dollar : Bool := decide (QUALIFIED_MIN_DOLLAR_24H ≤ r.dollar_24h)
    let is_top_n : Bool := decide (rank ≤ QUALIFIED_TOP_N_DOLLAR)
    let is_expiring : Bool :=
      match r.hours_left with
      | none => false
      | some h => decide (0 < h) && decide (h ≤ QUALIFIED_MAX_HOURS)
    let frs : List String :=
      (if is_top_n then [] else ["rank"]) ++
      (if is_dollar then [] else ["volume"]) ++
      (if is_spread then [] else ["spread"]) ++
      (if is_expiring then [] else ["expiry"])
    { r with dollar_rank := rank, qualified := decide (frs = []), fail_reasons := frs }

/-- The ranking + qualification pass over the whole record list. -/

def assignRanks (rs : List Rec) : List Rec :=
  let ranks := rankMap rs
  rs.map (fun r => qualifyRec (dictLookup ranks r.ticker) r)

/-- The part of `scan` up to (and including) rank assignment and qualification, before
the final display sort. -/

def scanRanked (minPrice : Int) (prefixes : List String) (minVolume topN : Nat)
    (now : Int) (ms : List Market) : List Rec :=
  assignRanks (scanRecords minPrice prefixes minVolume topN now ms)

/-- The final `results.sort(key=...)` comparison: qualified first, then
tier ascending, price descending, dollar volume descending, spread
ascending (lexicographic, `a` allowed to stay before an equal `b`). -/

def scanSortLe (a b : Rec) : Bool :=
  let qa : Nat := if a.qualified then 0 else 1
  let qb : Nat := if b.qualified then 0 else 1
  if qa ≠ qb then decide (qa < qb)
  else if a.tier ≠ b.tier then decide (a.tier < b.tier)
  else if a.signal_price ≠ b.signal_price then decide (b.signal_price < a.signal_price)
  else if a.dollar_24h ≠ b.dollar_24h then decide (b.dollar_24h < a.dollar_24h)
  else decide (a.spread_pct ≤ b.spread_pct)

/-- Model of `scan` (pure part): the list of result records, ranked, qualified and
sorted for display.  The market-cache layer, `stats` dict, `use_cache`
shortcut and `stop_check` cancellation are orthogonal to the result
contents and are not modelled. -/

def scan (minPrice : Int) (prefixes : List String) (minVolume topN : Nat)
    (now : Int) (ms : List Market) : List Rec :=
  stableSortBy scanSortLe (scanRanked minPrice prefixes minVolume topN now ms)

/-! ## Store embedding (`db.py`)

The position/trade ledger is modelled as an in-memory state.  `closed_today`
stands for the SQL predicate `date(closed_at) = date('now')`. -/

structure Position where
  ticker : String
  side : String
  quantity : Nat
  is_closed : Bool
  realized_pnl_cents : Int
  closed_today : Bool
deriving DecidableEq

structure Store where
  positions : List Position
  deposits : List Int
  withdrawals : List Int
deriving DecidableEq

/-- Model of `get_today_trading_loss`: the (positive) sum of negative realized P&L
over positions closed today; deposits and withdrawals are not read. -/

def get_today_trading_loss (s : Store) : Nat :=
  let rows := s.positions.filter
    (fun p => p.is_closed && decide (p.realized_pnl_cents < 0) && p.closed_today)
  let pnls := rows.map (fun p => p.realized_pnl_cents)
  pnls.sum.natAbs

/-- Model of `get_position_tickers`: tickers of open positions (used only through
membership, so the Python `set` is kept as a list). -/

def get_position_tickers (s : Store) : List String :=
  let rows := s.positions.filter (fun p => !p.is_closed && decide (0 < p.quantity))
  rows.map (fun p => p.ticker)

/-- Model of `count_open_positions`: number of open position rows. -/

def count_open_positions (s : Store) : Nat :=
  (s.positions.filter (fun p => !p.is_closed && decide (0 < p.quantity))).length

/-! ## Sizing (`sizing.py`) -/

/-- Python `int(q)`: truncation toward zero. -/

def int_trunc (q : ℚ) : Int := if 0 ≤ q then ⌊q⌋ else ⌈q⌉

/-- Model of `calculate_position`: `floor(balance·risk_pct / price)` contracts,
clamped to 0, and 0 outright on a non-positive price or balance. -/

def calculate_position (balance_cents price_cents : Int) (risk_pct : ℚ) : Int :=
  if price_cents ≤ 0 ∨ balance_cents ≤ 0 then 0
  else max ⌊(balance_cents : ℚ) * risk_pct / (price_cents : ℚ)⌋ 0

/-! ## Ticker decoding (`ticker.py`) -/

/-- Digits of a decimal numeral to a `Nat` (`none` on a non-digit). -/

def digitsToNat (l : List Char) : Option Nat :=
  if l.all (fun c => c.isDigit) then
    some (l.foldl (fun n c => n * 10 + (c.toNat - 48)) 0)
  else none

/-- Python `float(s)` restricted to plain decimal numerals
(`"84125"`, `"83249.99"`, `".5"`, `"123."`), the only shapes a ticker's
strike segment takes; other float syntaxes are out of scope. -/

def parse_float (s : String) : Option ℚ :=
  match splitOnChar '.' s.data with
  | [w] =>
    if w.isEmpty then none
    else (digitsToNat w).map (fun n => (n : ℚ))
  | [w, f] =>
    if w.isEmpty ∧ f.isEmpty then none
    else
      match digitsToNat w, digitsToNat f with
      | some n, some m => some ((n : ℚ) + (m : ℚ) / ((10 : ℚ) ^ f.length))
      | some n, none => if f.isEmpty then some ((n : ℚ)) else none
      | none, some m => if w.isEmpty then some ((m : ℚ) / ((10 : ℚ) ^ f.length)) else none
      | none, none => none
  | _ => none

/-- Walk the hyphen-separated ticker segments from the right, returning the
first `T`/`B`-prefixed segment that parses as a number. -/

def extract_strike_go : List String → Option ℚ
  | [] => none
  | part :: rest =>
    if part ≠ "" ∧ (part.front = 'T' ∨ part.front = 'B') then
      match parse_float (part.drop 1) with
      | some v => some v
      | none => extract_strike_go rest
    else extract_strike_go rest

/-- Model of `extract_strike_price`. -/

def extract_strike_price (ticker : String) : Option ℚ :=
  extract_strike_go (((splitOnChar '-' ticker.data).map String.mk).reverse)

/-! ## Category detection (`ai.py`) -/

/-- The `_CATEGORY_PREFIXES` table, in Python dict insertion order. -/

def CATEGORY_PREFIXES : List (String × List String) :=
  [("crypto",
    ["KXBTC", "KXETH", "KXDOGE", "KXSHIBA", "KXSOL", "KXXRP",
     "KXADA", "KXBNB", "KXDOT", "KXLINK", "KXMATIC", "KXAVAX"]),
   ("sports",
    ["KXNFL", "KXNBA", "KXMLB", "KXNHL", "KXSOCCER", "KXNCAAB",
     "KXNCAAF", "KXMMA", "KXTENNIS", "KXGOLF", "KXF1"]),
   ("politics",
    ["KXPOTUS", "KXAPRPOTUS", "KXGOVSHUT", "KXGOVTFUND",
     "KXSENATE", "KXHOUSE", "KXELECTION"]),
   ("weather", ["KXHIGH", "KXLOW", "KXRAIN", "KXSNOW", "KXTEMP"]),
   ("finance",
    ["KXINX", "KXNASDAQ", "KXSP500", "KXNAS", "KXEURUSD",
     "KXUSDJPY", "KXWTI", "KXTNOTE", "KXFED", "KXCPI", "KXGDP",
     "KXPPI", "KXJOBLESS", "KXPAYROLLS"])]

/-- Model of `detect_category`: first category whose prefix list matches. -/

def detect_category (event_ticker : String) : String :=
  let upper := strUpper event_ticker
  match CATEGORY_PREFIXES.find? (fun cp => cp.2.any (fun p => strStartsWith upper p)) with
  | some cp => cp.1
  | none => "other"

/-! ## Whale strategy embedding (`whale.py`) -/

/-- One side's price dict inside a candlestick (`open`/`close`, each
possibly missing). -/

structure AskCandle where
  copen : Option Int
  cclose : Option Int
deriving DecidableEq

/-- A candlestick row as consumed by `_check_price_velocity`
(`end_period_ts` missing defaults to 0 through `.get`). -/

structure Candle where
  end_period_ts : Int
  yes_ask : Option AskCandle
  no_ask : Option AskCandle
deriving DecidableEq

/-- The live-market dict consumed through `live.get(f"side_ask", 0) or 0`:
missing and falsy values collapse to 0, so the fields are plain `Int`. -/

structure LiveQuote where
  yes_bid : Int
  yes_ask : Int
  no_bid : Int
  no_ask : Int
deriving DecidableEq

structure OrderResult where
  order_id : Option String
  status : String
  fill_count : Nat
  remaining_count : Nat
  taker_fill_cost : Int
  taker_fees : Int
deriving DecidableEq

/-- The advisor verdict used by the AI gate (`analyze_market` output;
`expected_outcome = ""` folds Python's `None or ""`). -/

structure AiResult where
  expected_outcome : String
  confidence : Int
  should_trade : Bool
deriving DecidableEq

/-- The external world of one invocation: exchange client calls, balance,
spot prices, and advisor verdicts, each indexed by the arguments the code
passes.  Fallible network calls are `Except`-valued. -/

structure ClientEnv where
  balance : Int
  get_market : String → Except String LiveQuote
  get_candles : String → Except String (List Candle)
  create_order : String → String → Int → Int → Except String OrderResult
  crypto_btc_usd : Option ℚ
  crypto_eth_usd : Option ℚ
  ai : String → AiResult

structure WhaleParams where
  prefixes : List String
  min_price : Int
  min_volume : Nat
  risk_pct : ℚ
  max_positions : Nat
  daily_loss_pct : ℚ
  dry_run : Bool
  max_hours_to_expiration : Option ℚ
  with_ai : Bool
  min_confidence : Int
  exclude_categories : List String

/-- The defaults of `run_whale_strategy`'s signature. -/

def defaultWhaleParams : WhaleParams :=
  { prefixes := ["KXNFL", "KXNBA", "KXBTC", "KXETH"]
    min_price := 95
    min_volume := 10000
    risk_pct := 1 / 100
    max_positions := 10
    daily_loss_pct := 5 / 100
    dry_run := true
    max_hours_to_expiration := some 2
    with_ai := true
    min_confidence := 75
    exclude_categories := [] }

/-- The summary dict returned by `run_whale_strategy` (keys absent from the
early-return dicts are modelled as `none`/0). -/

structure Summary where
  scanned : Nat
  skipped : Nat
  traded : Nat
  orders : Nat
  stopped_reason : Option String
  selected_ticker : Option String
deriving DecidableEq

/-- Python `x or y` on an optional int, where both `None` and 0 are falsy. -/

def pyOrOpt (a b : Option Int) : Option Int :=
  match a with
  | some v => if v = 0 then b else some v
  | none => b

def askDictOf (cd : Candle) (side : String) : Option AskCandle :=
  if side == "yes" then cd.yes_ask
  else if side == "no" then cd.no_ask
  else none

/-- The reference price of `_check_price_velocity`: the prior candle's
close (or open) when at least two candles exist, else the latest candle's
open — with Python's `or` falsy-chaining. -/

def candleRef (sorted : List Candle) (side : String) : Option Int :=
  let ref1 : Option Int :=
    if 2 ≤ sorted.length then
      match sorted.get? (sorted.length - 2) with
      | some prior =>
        pyOrOpt ((askDictOf prior side).bind (fun d => d.cclose))
          ((askDictOf prior side).bind (fun d => d.copen))
      | none => none
    else none
  match ref1 with
  | some v => some v
  | none => (sorted.getLast?).bind (fun latest => (askDictOf latest side).bind (fun d => d.copen))

/-- Model of `_check_price_velocity`: `true` means the price spiked too fast and the
candidate must be skipped.  The candlestick fetch is passed in as an
`Except`; any fetch error returns `false` (fail open). -/

def check_price_velocity (candles : Except String (List Candle)) (side : String)
    (current_ask : Int) (max_move_pct : ℚ) : Bool :=
  match candles with
  | .error _ => false
  | .ok cs =>
    if cs.isEmpty then false
    else
      let sorted := stableSortBy (fun a b => decide (a.end_period_ts ≤ b.end_period_ts)) cs
      match candleRef sorted side with
      | none => false
      | some ref =>
        if ref ≤ 0 then false
        else
          let move_pct : ℚ := ((current_ask - ref : Int) : ℚ) / ((ref : Int) : ℚ) * 100
          decide (max_move_pct < move_pct)

/-- The mutable per-candidate working state of the loop body. -/

structure CandState where
  bid : Int
  ask : Int
  est : Int
  contracts : Int
deriving DecidableEq

def sideAsk (l : LiveQuote) (side : String) : Int :=
  if side == "yes" then l.yes_ask else if side == "no" then l.no_ask else 0

def sideBid (l : LiveQuote) (side : String) : Int :=
  if side == "yes" then l.yes_bid else if side == "no" then l.no_bid else 0

/-- Sizing gate: estimate entry price from the scan record and size the
position; `none` rejects the candidate (insufficient balance). -/

def sizingGate (balance : Int) (risk_pct : ℚ) (c : Rec) : Option CandState :=
  let est := if 0 < c.signal_ask then c.signal_ask else c.signal_price
  let n := calculate_position balance est risk_pct
  if n ≤ 0 then none
  else some { bid := c.signal_price, ask := c.signal_ask, est := est, contracts := n }

/-- Live price re-check gate: re-fetch the market; reject when the live ask
leaves `[min_price, 98]` or re-sizing hits zero, otherwise adopt the live
values.  A fetch error falls through with the state unchanged (the
`except` branch only logs). -/

def liveGate (env : ClientEnv) (min_price : Int) (risk_pct : ℚ) (ticker side : String)
    (st : CandState) : Option CandState :=
  match env.get_market ticker with
  | .error _ => some st
  | .ok live =>
    let live_ask := sideAsk live side
    let live_bid := sideBid live side
    if live_ask < min_price ∨ 98 < live_ask then none
    else
      let n := calculate_position env.balance live_ask risk_pct
      if n ≤ 0 then none
      else some { bid := live_bid, ask := live_ask, est := live_ask, contracts := n }

/-- Velocity gate: reject when `_check_price_velocity` flags a spike. -/

def velocityGate (env : ClientEnv) (ticker side : String) (st : CandState) :
    Option CandState :=
  if check_price_velocity (env.get_candles ticker) side st.ask 10 then none else some st

/-- Crypto directional gate: for `KXBTC`/`KXETH` events with a decodable
strike and an available spot price, reject a contrarian bet (0.5% buffer). -/

def directionalGate (env : ClientEnv) (event_ticker ticker side : String)
    (st : CandState) : Option CandState :=
  let event_pre := strUpper event_ticker
  if ["KXBTC", "KXETH"].any (fun p => strStartsWith event_pre p) then
    match extract_strike_price ticker with
    | none => some st
    | some strike =>
      let spot := if listContainsSub "BTC".data event_pre.data then env.crypto_btc_usd
                  else env.crypto_eth_usd
      match spot with
      | none => some st
      | some sp =>
        if side == "no" ∧ strike * (1 + 5 / 1000) < sp then none
        else if side == "yes" ∧ sp < strike * (1 - 5 / 1000) then none
        else some st
  else some st

/-- AI confidence gate. -/

def aiGate (p : WhaleParams) (env : ClientEnv) (c : Rec) (st : CandState) :
    Option CandState :=
  if ¬ p.with_ai then some st
  else
    let res := env.ai c.ticker
    let ai_side := strUpper res.expected_outcome
    let our_side := strUpper c.signal_side
    if ¬ (ai_side = "UNKNOWN" ∨ ai_side = "") ∧ ai_side ≠ our_side then none
    else if 0 < res.confidence ∧ res.confidence < p.min_confidence then none
    else if ¬ res.should_trade then none
    else some st

/-- The tail of the gate chain from the directional gate on. -/

def evalFromDirectional (p : WhaleParams) (env : ClientEnv) (c : Rec)
    (st : CandState) : Option CandState :=
  (directionalGate env c.event_ticker c.ticker c.signal_side st).bind (aiGate p env c)

/-- The tail of the gate chain from the velocity gate on. -/

def evalFromVelocity (p : WhaleParams) (env : ClientEnv) (c : Rec)
    (st : CandState) : Option CandState :=
  (velocityGate env c.ticker c.signal_side st).bind (evalFromDirectional p env c)

/-- The whole per-candidate gate chain; `none` means some gate rejected the
candidate (the loop moves on to the next one). -/

def evalCandidate (p : WhaleParams) (env : ClientEnv) (c : Rec) : Option CandState :=
  (sizingGate env.balance p.risk_pct c).bind (fun st =>
    (liveGate env p.min_price p.risk_pct c.ticker c.signal_side st).bind (fun st2 =>
      evalFromVelocity p env c st2))

/-- The candidate loop (`for idx, selected in enumerate(available)`),
threading the summary.  A stop request breaks with `"stopped"`; a dry-run
submission or a live fill breaks the loop; a gate rejection, an unfilled
(auto-cancelled) order or a submission error advances to the next
candidate. -/

def candidateLoop (p : WhaleParams) (env : ClientEnv) (stop : Nat → Bool) :
    List Rec → Nat → Summary → Summary
  | [], _, s => s
  | c :: rest, idx, s =>
    if stop idx then { s with stopped_reason := some "stopped" }
    else
      let s1 := { s with selected_ticker := some c.ticker }
      match evalCandidate p env c with
      | none => candidateLoop p env stop rest (idx + 1) s1
      | some st =>
        let limit_price : Int := if 0 < st.ask then st.ask else 98
        if p.dry_run then { s1 with traded := 1, orders := s1.orders + 1 }
        else
          match env.create_order c.ticker c.signal_side st.contracts limit_price with
          | .error _ => candidateLoop p env stop rest (idx + 1) { s1 with orders := s1.orders + 1 }
          | .ok res =>
            if 0 < res.fill_count then { s1 with orders := s1.orders + 1, traded := 1 }
            else candidateLoop p env stop rest (idx + 1) { s1 with orders := s1.orders + 1 }

/-- Filter 7: drop candidates whose ticker already has an open position. -/

def heldFilter (store : Store) (cands : List Rec) : List Rec :=
  cands.filter (fun c => ¬ (get_position_tickers store).contains c.ticker)

/-- Filter 9's predicate `_within_expiry`: a candidate is kept when its
`hours_left` is known, positive, and within the adaptive window (10h for a
spread of at most 2.5%, else `max_hours_to_expiration`). -/

def within_expiry (max_hours : ℚ) (c : Rec) : Bool :=
  match c.hours_left with
  | none => false
  | some hrs =>
    if hrs ≤ 0 then false
    else
      let limit := if c.spread_pct ≤ (25 : ℚ) / 10 then (10 : ℚ) else max_hours
      decide (hrs ≤ limit)

/-- The whale-ranking comparison (tier asc, hours-left asc with `None` as
9999, price desc, dollar volume desc), lexicographic and stable. -/

def whaleRankLe (a b : Rec) : Bool :=
  let ha : ℚ := match a.hours_left with | none => 9999 | some h => h
  let hb : ℚ := match b.hours_left with | none => 9999 | some h => h
  if a.tier ≠ b.tier then decide (a.tier < b.tier)
  else if ha ≠ hb then decide (ha < hb)
  else if a.signal_price ≠ b.signal_price then decide (b.signal_price < a.signal_price)
  else decide (b.dollar_24h ≤ a.dollar_24h)

/-- The tail of `run_whale_strategy` from the scan results on (filters 5-9, ranking,
and the candidate loop). -/

def whaleAfterScan (p : WhaleParams) (env : ClientEnv) (store : Store)
    (stop : Nat → Bool) (results : List Rec) : Summary :=
  let total_found := results.length
  let candidates := results.filter (fun r => r.qualified)
  if candidates.isEmpty then
    { scanned := total_found, skipped := 0, traded := 0, orders := 0,
      stopped_reason := none, selected_ticker := none }
  else
    let candidates :=
      if ¬ p.exclude_categories.isEmpty then
        candidates.filter
          (fun c => ¬ p.exclude_categories.contains (detect_category c.event_ticker))
      else candidates
    let available := heldFilter store candidates
    let held := candidates.length - available.length
    let available := available.filter (fun c => c.signal_ask ≤ 98)
    let available :=
      match p.max_hours_to_expiration with
      | none => available
      | some mh => available.filter (within_expiry mh)
    if available.isEmpty then
      { scanned := total_found, skipped := held, traded := 0, orders := 0,
        stopped_reason := none, selected_ticker := none }
    else
      let ranked := stableSortBy whaleRankLe available
      candidateLoop p env stop ranked 0
        { scanned := total_found, skipped := held, traded := 0, orders := 0,
          stopped_reason := none, selected_ticker := none }

/-- The keyword parameters `scan` accepts (its `def` signature). -/

def scan_kwarg_names : List String :=
  ["min_price", "ticker_prefixes", "min_volume", "use_cache", "top_n", "stop_check"]

/-- The keyword arguments `run_whale_strategy` passes at its `scan(...)`
call site. -/

def whale_scan_call_kwargs : List String :=
  ["min_price", "ticker_prefixes", "min_volume", "top_n", "use_cache",
   "stop_check", "exclude_categories"]

/-- The `scan(...)` call inside `run_whale_strategy`, under Python call
semantics: passing a keyword argument the callee does not declare raises
`TypeError` before the callee body runs. -/

def scanCall (p : WhaleParams) (now : Int) (ms : List Market) :
    Except String (List Rec) :=
  if whale_scan_call_kwargs.all (fun k => scan_kwarg_names.contains k) then
    .ok (scan p.min_price p.prefixes p.min_volume 500 now ms)
  else
    .error "TypeError: scan() got an unexpected keyword argument: exclude_categories"

/-- Model of `run_whale_strategy`: risk gates (daily loss, position count), then the
scan call, then the post-scan pipeline.  An uncaught Python exception is an
`Except.error`.  (Filter 1, the balance read, always passes and only
logs.) -/

def run_whale_strategy (p : WhaleParams) (env : ClientEnv) (store : Store)
    (stop : Nat → Bool) (ms : List Market) (now : Int) : Except String Summary :=
  let daily_loss := get_today_trading_loss store
  let max_daily_loss := int_trunc ((env.balance : ℚ) * p.daily_loss_pct)
  if max_daily_loss ≤ (daily_loss : Int) then
    .ok { scanned := 0, skipped := 0, traded := 0, orders := 0,
          stopped_reason := some "daily_loss", selected_ticker := none }
  else if p.max_positions ≤ count_open_positions store then
    .ok { scanned := 0, skipped := 0, traded := 0, orders := 0,
          stopped_reason := some "max_positions", selected_ticker := none }
  else
    match scanCall p now ms with
    | .error e => .error e
    | .ok results => .ok (whaleAfterScan p env store stop results)

deriving instance DecidableEq for Except

/-! ## Concrete scenario inputs used by witnesses and counterexamples -/

/-- Scenario A's single quote (spec §8): yes 98/99, 24h volume 50000. -/

def quoteX : Market :=
  { ticker := "X", event_ticker := "", volume_24h := 50000, volume := 0,
    open_interest := 0, yes_bid := 98, yes_ask := 99, no_bid := 0, no_ask := 0,
    close_ts := none }

/-- Scenario B's market: ask 98 (tier 1), 24h dollar volume 20000, closes in
3 hours, spread ≈ 1% (1.03% after rounding, the nearest integer-cent book
to the spec's 1.0%). -/

def mktB : Market :=
  { ticker := "B1", event_ticker := "KXNFL-GM", volume_24h := 20409, volume := 0,
    open_interest := 0, yes_bid := 97, yes_ask := 98, no_bid := 2, no_ask := 0,
    close_ts := some 10800 }

def storeEmpty : Store := { positions := [], deposits := [], withdrawals := [] }

/-- A store whose only open position is the NO side of ticker `T`. -/

def storeHeldNo : Store :=
  { positions := [{ ticker := "T", side := "no", quantity := 1, is_closed := false,
                    realized_pnl_cents := 0, closed_today := false }],
    deposits := [], withdrawals := [] }

/-- A store sitting exactly at the daily-loss boundary for a 100000¢
balance at the default 5% limit: one position closed today at −5000¢. -/

def storeLossBoundary : Store :=
  { positions := [{ ticker := "Z", side := "yes", quantity := 0, is_closed := true,
                    realized_pnl_cents := -5000, closed_today := true }],
    deposits := [123], withdrawals := [45] }

/-- A qualified tier-1 candidate on a non-crypto event. -/

def candA : Rec :=
  { ticker := "A", event_ticker := "KXNFL-GM1", signal_side := "yes",
    signal_price := 97, signal_ask := 98, volume_24h := 20000, dollar_24h := 19600,
    volume := 0, open_interest := 0, yes_bid := 97, no_bid := 2, tier := 1,
    spread_pct := 1, hours_left := some 1, dollar_rank := 1, qualified := true,
    fail_reasons := [] }

def candB : Rec :=
  { candA with
    ticker := "B"
    event_ticker := "KXNFL-GM2"
    dollar_rank := 2 }

/-- The YES-side sibling of `storeHeldNo`'s ticker. -/

def candTyes : Rec :=
  { candA with
    ticker := "T"
    event_ticker := "KXNFL-GM3" }

/-- Live-mode parameters with the AI gate off and no expiry window. -/

def liveParams : WhaleParams :=
  { defaultWhaleParams with
    dry_run := false
    with_ai := false
    max_hours_to_expiration := none }

/-- An environment where the live re-check and candlestick fetches fail
(exercising the fail-open paths), ticker `A`'s order rests unfilled and any
other order fills. -/

def envTwoOrders : ClientEnv :=
  { balance := 100000
    get_market := fun _ => .error "connection reset"
    get_candles := fun _ => .error "connection reset"
    create_order := fun ticker _ _ _ =>
      if ticker == "A" then
        .ok { order_id := some "o1", status := "resting", fill_count := 0,
              remaining_count := 5, taker_fill_cost := 0, taker_fees := 0 }
      else
        .ok { order_id := some "o2", status := "executed", fill_count := 3,
              remaining_count := 0, taker_fill_cost := 294, taker_fees := 3 }
    crypto_btc_usd := none
    crypto_eth_usd := none
    ai := fun _ => { expected_outcome := "", confidence := 0, should_trade := true } }

/-- An environment whose orders always fill (Scenario B's happy path). -/

def envFills : ClientEnv :=
  { envTwoOrders with
    create_order := fun _ _ _ _ => .ok
      { order_id := some "o", status := "executed", fill_count := 1,
        remaining_count := 0, taker_fill_cost := 98, taker_fees := 1 } }

/-- A working candidate state (97/98¢, 10 contracts). -/

def stA : CandState := { bid := 97, ask := 98, est := 98, contracts := 10 }

/-- The expiry predicate of the qualification rule, propositionally. -/

def expiringPred (hl : Option ℚ) : Prop :=
  ∃ h, hl = some h ∧ 0 < h ∧ h ≤ QUALIFIED_MAX_HOURS

instance expiringPredDec (hl : Option ℚ) : Decidable (expiringPred hl) :=
  match hl with
  | none => isFalse (by rintro ⟨h, heq, -, -⟩; exact Option.noConfusion heq)
  | some x =>
    if hpos : 0 < x then
      if hle : x ≤ QUALIFIED_MAX_HOURS then
        isTrue ⟨x, rfl, hpos, hle⟩
      else isFalse (by rintro ⟨h, heq, -, hle2⟩; cases heq; exact hle hle2)
    else isFalse (by rintro ⟨h, heq, hpos2, -⟩; cases heq; exact hpos hpos2)

/-- The record `scan` produces for `mktB` (under no prefix filter). -/

def recB1 : Rec :=
  { ticker := "B1", event_ticker := "KXNFL-GM", signal_side := "yes",
    signal_price := 97, signal_ask := 98, volume_24h := 20409, dollar_24h := 20000,
    volume := 0, open_interest := 0, yes_bid := 97, no_bid := 2, tier := 1,
    spread_pct := 103 / 100, hours_left := some 3, dollar_rank := 1,
    qualified := true, fail_reasons := [] }

/-- The number of records ranked strictly before position `i` by the
descending stable sort on the key list `keys`: keys strictly larger
anywhere, plus equal keys at earlier positions (the stable tie-break). -/

def posRank (keys : List Int) (i : Nat) : Nat :=
  keys.countP (fun k => decide (keys.getD i 0 < k)) +
  (keys.take i).countP (fun k => decide (k = keys.getD i 0))

/-- Descending sortedness by dollar volume. -/

def DSortedRec (l : List Rec) : Prop :=
  l.Pairwise (fun a b => b.dollar_24h ≤ a.dollar_24h)

/-- Two markets with identical volume and book, distinct tickers — a
dollar-volume tie for the rank's stable tie-break. -/

def mktT1 : Market :=
  { ticker := "T1", event_ticker := "KXNBA-G1", volume_24h := 20000, volume := 0,
    open_interest := 0, yes_bid := 97, yes_ask := 98, no_bid := 2, no_ask := 0,
    close_ts := some 3600 }

def mktT2 : Market :=
  { mktT1 with
    ticker := "T2"
    event_ticker := "KXNBA-G2" }

/-! ## Lemmas and claim theorems -/

theorem stableInsert_perm (le : α → α → Bool) (x : α) (l : List α) :
    List.Perm (stableInsert le x l) (x :: l) := by
  induction l with
  | nil => rfl
  | cons y ys ih =>
    simp only [stableInsert]
    split
    · exact (ih.cons y).trans (List.Perm.swap x y ys)
    · rfl

theorem foldl_stableInsert_perm (le : α → α → Bool) :
    ∀ (l acc : List α),
      List.Perm (List.foldl (fun a x => stableInsert le x a) acc l) (acc ++ l) := by
  intro l
  induction l with
  | nil => intro acc; simp
  | cons x xs ih =>
    intro acc
    refine (ih (stableInsert le x acc)).trans ?_
    refine ((stableInsert_perm le x acc).append_right xs).trans ?_
    exact List.perm_middle.symm

theorem stableSortBy_perm (le : α → α → Bool) (l : List α) :
    List.Perm (stableSortBy le l) l := by
  simpa [stableSortBy] using foldl_stableInsert_perm le l []

theorem mem_stableSortBy (le : α → α → Bool) (l : List α) (a : α) :
    a ∈ stableSortBy le l ↔ a ∈ l :=
  (stableSortBy_perm le l).mem_iff

/-! ## Claim theorems -/

/-- C1 (code bug witness): with sufficient balance (100000¢), no realized
loss, no open positions and the single qualified Scenario-B candidate, the
risk gates pass and yet `run_whale_strategy` raises
`TypeError` at its `scan(...)` call — it passes the keyword argument
`exclude_categories`, which `scan` does not declare — so the run never
reaches the candidate loop and submits no order, while the very same
market qualifies under `scan`'s own predicate. -/

theorem c1_scan_call_type_error :
    run_whale_strategy defaultWhaleParams envFills storeEmpty (fun _ => false) [mktB] 0 =
      .error "TypeError: scan() got an unexpected keyword argument: exclude_categories"
    ∧ ((scan 95 defaultWhaleParams.prefixes 10000 500 0 [mktB]).filter
        (fun r => r.qualified)).length = 1 := by
  constructor
  · norm_num [run_whale_strategy, get_today_trading_loss, count_open_positions,
      int_trunc, scanCall, whale_scan_call_kwargs, scan_kwarg_names, envFills,
      envTwoOrders, storeEmpty, defaultWhaleParams]
    decide
  · norm_num [scan, scanRanked, scanRecords, assignRanks, rankMap, dictLookup,
      sortByDollarDesc, stableSortBy, stableInsert, scanRecOfMarket, prefixOk,
      qualifyRec, scanSortLe, hours_until_close, assign_tier, calc_spread_pct,
      round2, round_eq, strUpper, strStartsWith, mktB, defaultWhaleParams,
      QUALIFIED_MIN_DOLLAR_24H, QUALIFIED_MAX_SPREAD_PCT, QUALIFIED_TOP_N_DOLLAR,
      QUALIFIED_MAX_HOURS, List.filterMap_cons, List.filterMap_nil, List.lookup,
      List.enum, List.enumFrom, Int.fdiv]

/-- C3 (counterexample): on Scenario A's quote, `scan` does not produce the
claimed record for `X` with `tier = 0` and `fail_reasons = ["tier0"]` —
it produces no record for `X` at all. -/

theorem c3_scenario_a_counterexample :
    ¬ ∃ r ∈ scan 95 [] 10000 30 0 [quoteX],
        r.ticker = "X" ∧ r.tier = 0 ∧ r.qualified = false ∧
        r.fail_reasons = ["tier0"] := by
  decide

/-- C3 (amended): Scenario A's quote yields an empty result list: its
yes ask 99 is above the 98¢ ceiling of the price band and its inferred
no ask (100 − 98 = 2) is below `min_price`, so the quote is dropped before
tier assignment and no `tier0` diagnostic is ever emitted. -/

theorem c3_scenario_a_amended :
    scan 95 [] 10000 30 0 [quoteX] = [] := by
  decide

/-- C4 (counterexample): the already-held filter removes the YES-side
candidate on ticker `T` although the store's only open position on `T` is
on the NO side — so removal is not keyed on the ticker+side pair. -/

theorem c4_held_filter_counterexample :
    heldFilter storeHeldNo [candTyes] = []
    ∧ ∀ q ∈ storeHeldNo.positions,
        ¬ (q.ticker = candTyes.ticker ∧ q.side = candTyes.signal_side ∧
           q.is_closed = false ∧ 0 < q.quantity) := by
  constructor
  · decide
  · decide

/-- C4 (amended): in the FILTER stage a candidate is removed as
already-held exactly when some open position (any side) carries its
ticker; the position's side plays no role. -/

theorem c4_held_filter_amended (store : Store) (cands : List Rec) (c : Rec)
    (hc : c ∈ cands) :
    c ∈ heldFilter store cands ↔
      ¬ ∃ q, q ∈ store.positions ∧ q.is_closed = false ∧ 0 < q.quantity ∧
          q.ticker = c.ticker := by
  simp only [heldFilter, List.mem_filter, hc, true_and, get_position_tickers,
    decide_eq_true_eq, List.elem_iff, List.mem_map, List.mem_filter,
    Bool.and_eq_true, Bool.not_eq_true', decide_eq_false_iff_not, not_lt,
    Bool.not_eq_true]
  constructor
  · intro h hex
    obtain ⟨q, hq, hcl, hqty, ht⟩ := hex
    exact h ⟨q, ⟨hq, by simp [hcl], by simpa using hqty⟩, ht⟩
  · intro h hex
    obtain ⟨q, ⟨hq, hcl, hqty⟩, ht⟩ := hex
    exact h ⟨q, hq, by simpa using hcl, by simpa using hqty, ht⟩

/-- C4 (amended, witness): the iff instantiated at the concrete
opposite-side store of the counterexample. -/

theorem c4_held_filter_amended_witness :
    candTyes ∈ heldFilter storeHeldNo [candTyes] ↔
      ¬ ∃ q, q ∈ storeHeldNo.positions ∧ q.is_closed = false ∧ 0 < q.quantity ∧
          q.ticker = candTyes.ticker :=
  c4_held_filter_amended storeHeldNo [candTyes] candTyes (List.mem_singleton.mpr rfl)

/-- C7: whenever today's realized trading loss reaches the balance-scaled
daily-loss limit (boundary included), `run_whale_strategy` returns the
`daily_loss` summary with zero scanned candidates; moreover the result does
not depend on the market data (the abort happens before any scanning), and
the loss figure depends on the store's positions only, so deposits and
withdrawals cannot change it. -/

theorem c7_daily_loss_abort (p : WhaleParams) (env : ClientEnv) (store : Store)
    (stop : Nat → Bool) (ms : List Market) (now : Int)
    (h : int_trunc ((env.balance : ℚ) * p.daily_loss_pct) ≤
      (get_today_trading_loss store : Int)) :
    run_whale_strategy p env store stop ms now =
      .ok { scanned := 0, skipped := 0, traded := 0, orders := 0,
            stopped_reason := some "daily_loss", selected_ticker := none }
    ∧ (∀ ms2 now2, run_whale_strategy p env store stop ms2 now2 =
        run_whale_strategy p env store stop ms now)
    ∧ (∀ store2 : Store, store2.positions = store.positions →
        get_today_trading_loss store2 = get_today_trading_loss store) := by
  refine ⟨?_, ?_, ?_⟩
  · simp [run_whale_strategy, h]
  · intro ms2 now2
    simp [run_whale_strategy, h]
  · intro store2 hs
    simp [get_today_trading_loss, hs]

/-- C7 (witness): Scenario C at the exact boundary — balance 100000¢,
5% limit (5000¢), and exactly 5000¢ of realized loss closed today. -/

theorem c7_daily_loss_abort_witness :
    run_whale_strategy defaultWhaleParams envFills storeLossBoundary
      (fun _ => false) [mktB] 0 =
      .ok { scanned := 0, skipped := 0, traded := 0, orders := 0,
            stopped_reason := some "daily_loss", selected_ticker := none } :=
  (c7_daily_loss_abort defaultWhaleParams envFills storeLossBoundary
    (fun _ => false) [mktB] 0
    (by norm_num [int_trunc, get_today_trading_loss, storeLossBoundary, envFills,
      envTwoOrders, defaultWhaleParams])).1

/-- C8: an error from the candlestick fetch makes `_check_price_velocity`
report no spike (fail open); consequently the velocity gate passes the
candidate state through unchanged and candidate evaluation from the
velocity gate on coincides with evaluation from the directional gate on —
the error never escapes. -/

theorem c8_velocity_fail_open (p : WhaleParams) (env : ClientEnv) (c : Rec)
    (st : CandState) (e : String) (he : env.get_candles c.ticker = .error e) :
    (∀ side ask mmp, check_price_velocity (.error e) side ask mmp = false)
    ∧ velocityGate env c.ticker c.signal_side st = some st
    ∧ evalFromVelocity p env c st = evalFromDirectional p env c st := by
  refine ⟨fun side ask mmp => rfl, ?_, ?_⟩
  · simp [velocityGate, he, check_price_velocity]
  · simp [evalFromVelocity, velocityGate, he, check_price_velocity]

/-- C8 (witness): the fail-open behaviour at a concrete erroring
environment. -/

theorem c8_velocity_fail_open_witness :
    check_price_velocity (.error "connection reset") "yes" 98 10 = false
    ∧ velocityGate envTwoOrders candA.ticker candA.signal_side stA = some stA
    ∧ evalFromVelocity defaultWhaleParams envTwoOrders candA stA =
        evalFromDirectional defaultWhaleParams envTwoOrders candA stA := by
  obtain ⟨h1, h2, h3⟩ :=
    c8_velocity_fail_open defaultWhaleParams envTwoOrders candA stA
      "connection reset" rfl
  exact ⟨h1 "yes" 98 10, h2, h3⟩

/-- C9: with an expiry window configured, the adaptive filter keeps a
candidate exactly when its time to expiry is known, positive, and at most
10 hours for a spread of at most 2.5%, or at most `max_hours_to_expiration`
otherwise; unknown or non-positive expiries are always removed.  The
default window is 2 hours. -/

theorem within_expiry_iff (mh : ℚ) (c : Rec) :
    within_expiry mh c = true ↔ ∃ h, c.hours_left = some h ∧ 0 < h ∧
      h ≤ (if c.spread_pct ≤ (25 : ℚ) / 10 then (10 : ℚ) else mh) := by
  unfold within_expiry
  cases hcl : c.hours_left with
  | none => simp
  | some hrs =>
    by_cases h0 : hrs ≤ 0
    · simp only [if_pos h0, Option.some.injEq]
      constructor
      · intro hfalse
        exact absurd hfalse (by simp)
      · rintro ⟨h, rfl, hpos, -⟩
        exact absurd hpos (not_lt.mpr h0)
    · simp only [if_neg h0, Option.some.injEq, decide_eq_true_eq]
      constructor
      · intro hle
        exact ⟨hrs, rfl, not_le.mp h0, hle⟩
      · rintro ⟨h, rfl, -, hle⟩
        exact hle

theorem c9_expiry_window (mh : ℚ) (avail : List Rec) (c : Rec) :
    (c ∈ avail.filter (within_expiry mh) ↔
      (c ∈ avail ∧ ∃ h, c.hours_left = some h ∧ 0 < h ∧
        h ≤ (if c.spread_pct ≤ (25 : ℚ) / 10 then (10 : ℚ) else mh)))
    ∧ defaultWhaleParams.max_hours_to_expiration = some 2 := by
  refine ⟨?_, rfl⟩
  rw [List.mem_filter]
  exact and_congr_right (fun _ => within_expiry_iff mh c)

/-- C10: if the live re-check's market fetch raises, the gate does not
reject the candidate: it passes the state through untouched, and the whole
candidate evaluation equals sizing followed directly by the velocity-gate
tail, with the scan-time price and contract estimates unchanged. -/

theorem c10_live_recheck_fail_open (p : WhaleParams) (env : ClientEnv) (c : Rec)
    (st : CandState) (e : String) (he : env.get_market c.ticker = .error e) :
    liveGate env p.min_price p.risk_pct c.ticker c.signal_side st = some st
    ∧ evalCandidate p env c =
        (sizingGate env.balance p.risk_pct c).bind (evalFromVelocity p env c) := by
  constructor
  · simp [liveGate, he]
  · simp [evalCandidate, liveGate, he]

/-- C10 (witness): the live-gate fail-open at a concrete erroring
environment. -/

theorem c10_live_recheck_fail_open_witness :
    liveGate envTwoOrders defaultWhaleParams.min_price defaultWhaleParams.risk_pct
      candA.ticker candA.signal_side stA = some stA
    ∧ evalCandidate defaultWhaleParams envTwoOrders candA =
        (sizingGate envTwoOrders.balance defaultWhaleParams.risk_pct candA).bind
          (evalFromVelocity defaultWhaleParams envTwoOrders candA) :=
  c10_live_recheck_fail_open defaultWhaleParams envTwoOrders candA stA
    "connection reset" rfl

/-- C5 (counterexample): a live run over two qualified candidates where the
first order rests unfilled (and is auto-cancelled) submits a second order:
the summary's `orders` count reaches 2, so an order submission does not
stop the loop. -/

theorem c5_multiple_orders_counterexample :
    (whaleAfterScan liveParams envTwoOrders storeEmpty (fun _ => false)
      [candA, candB]).orders = 2 := by
  norm_num [whaleAfterScan, heldFilter, get_position_tickers, candidateLoop,
    stableSortBy, stableInsert, whaleRankLe, evalCandidate, sizingGate, liveGate,
    velocityGate, check_price_velocity, directionalGate, aiGate, evalFromVelocity,
    evalFromDirectional, calculate_position, strUpper, strStartsWith, liveParams,
    envTwoOrders, storeEmpty, candA, candB, defaultWhaleParams]
  decide

theorem candidateLoop_traded_le (p : WhaleParams) (env : ClientEnv)
    (stop : Nat → Bool) :
    ∀ (l : List Rec) (idx : Nat) (s : Summary), s.traded ≤ 1 →
      (candidateLoop p env stop l idx s).traded ≤ 1 := by
  intro l
  induction l with
  | nil =>
    intro idx s h
    simpa [candidateLoop] using h
  | cons c rest ih =>
    intro idx s h
    simp only [candidateLoop]
    split
    · simpa using h
    · cases hev : evalCandidate p env c with
      | none => exact ih _ _ (by simpa using h)
      | some st =>
        simp only
        split
        · simp
        · cases horder : env.create_order c.ticker c.signal_side st.contracts
            (if 0 < st.ask then st.ask else 98) with
          | error e => exact ih _ _ (by simpa using h)
          | ok res =>
            simp only
            split
            · simp
            · exact ih _ _ (by simpa using h)

theorem candidateLoop_orders_dry (p : WhaleParams) (env : ClientEnv)
    (stop : Nat → Bool) (hdry : p.dry_run = true) :
    ∀ (l : List Rec) (idx : Nat) (s : Summary),
      (candidateLoop p env stop l idx s).orders ≤ s.orders + 1 := by
  intro l
  induction l with
  | nil =>
    intro idx s
    simp [candidateLoop]
  | cons c rest ih =>
    intro idx s
    simp only [candidateLoop]
    split
    · simp
    · cases hev : evalCandidate p env c with
      | none => exact ih _ _
      | some st => simp [hdry]

/-- C5 (amended): the loop stops at the first fill, not at the first
submission: `traded` never exceeds 1 (and in dry-run mode, where the single
simulated submission breaks the loop, `orders` never exceeds 1 either) —
but a live submission that ends unfilled or raises increments `orders` and
the loop moves to the next candidate, so `orders` may exceed 1. -/

theorem c5_at_most_one_fill (p : WhaleParams) (env : ClientEnv) (store : Store)
    (stop : Nat → Bool) (results : List Rec) :
    (whaleAfterScan p env store stop results).traded ≤ 1
    ∧ (p.dry_run = true → (whaleAfterScan p env store stop results).orders ≤ 1) := by
  unfold whaleAfterScan
  cases hmh : p.max_hours_to_expiration
  all_goals
    dsimp only
    split_ifs <;>
      first
        | (refine ⟨?_, fun hdry => ?_⟩
           · exact candidateLoop_traded_le p env stop _ _ _ (by simp)
           · simpa using candidateLoop_orders_dry p env stop hdry _ 0 _)
        | simp

/-- C5 (amended, witness): the bounds instantiated on a concrete dry run. -/

theorem c5_at_most_one_fill_witness :
    (whaleAfterScan defaultWhaleParams envTwoOrders storeEmpty (fun _ => false)
      [candA]).traded ≤ 1
    ∧ (whaleAfterScan defaultWhaleParams envTwoOrders storeEmpty (fun _ => false)
      [candA]).orders ≤ 1 := by
  obtain ⟨h1, h2⟩ := c5_at_most_one_fill defaultWhaleParams envTwoOrders storeEmpty
    (fun _ => false) [candA]
  exact ⟨h1, h2 rfl⟩

theorem expiring_bool_iff (hl : Option ℚ) :
    (match hl with
     | none => false
     | some h => decide (0 < h) && decide (h ≤ QUALIFIED_MAX_HOURS)) = true
      ↔ expiringPred hl := by
  cases hl <;> simp [expiringPred]

theorem assign_tier_pos (ask : Int) (h : ask ≤ 98) : 0 < assign_tier ask := by
  unfold assign_tier
  split_ifs <;> omega

theorem scanRecOfMarket_tier_pos (minPrice now : Int) (m : Market) (r : Rec)
    (h : scanRecOfMarket minPrice now m = some r) : 0 < r.tier := by
  unfold scanRecOfMarket at h
  dsimp only at h
  set ya := (if m.yes_ask = 0 ∧ m.no_bid ≠ 0 then 100 - m.no_bid else m.yes_ask) with hya
  set na := (if m.no_ask = 0 ∧ m.yes_bid ≠ 0 then 100 - m.yes_bid else m.no_ask) with hna
  split_ifs at h with h1 h2
  · simp only [Option.some.injEq] at h
    subst h
    exact assign_tier_pos _ h1.2.2
  · simp only [Option.some.injEq] at h
    subst h
    exact assign_tier_pos _ h2.2.2

theorem scanRecords_tier_pos (minPrice : Int) (prefixes : List String)
    (minVolume topN : Nat) (now : Int) (ms : List Market) (r : Rec)
    (h : r ∈ scanRecords minPrice prefixes minVolume topN now ms) : 0 < r.tier := by
  simp only [scanRecords, List.mem_filterMap] at h
  obtain ⟨m, hm, hf⟩ := h
  exact scanRecOfMarket_tier_pos _ _ _ _ hf

/-- C2: for every record `scan` outputs, `qualified` holds exactly when the
five predicates hold; each of the five diagnosis codes appears in
`fail_reasons` exactly once when its predicate fails and not at all when it
holds; and when exactly one predicate fails, `fail_reasons` is exactly that
one code.  (Records the price band lets through are never tier 0, so the
`tier0` short-circuit cannot fire on an emitted record.) -/

theorem c2_qualification (minPrice now : Int) (prefixes : List String)
    (minVolume topN : Nat) (ms : List Market) (r : Rec)
    (hr : r ∈ scan minPrice prefixes minVolume topN now ms) :
    (r.qualified = true ↔
      (0 < r.tier ∧ r.dollar_rank ≤ QUALIFIED_TOP_N_DOLLAR ∧
        QUALIFIED_MIN_DOLLAR_24H ≤ r.dollar_24h ∧
        r.spread_pct ≤ QUALIFIED_MAX_SPREAD_PCT ∧ expiringPred r.hours_left))
    ∧ (r.fail_reasons.count "tier0" = if 0 < r.tier then 0 else 1)
    ∧ (r.fail_reasons.count "rank" =
        if r.dollar_rank ≤ QUALIFIED_TOP_N_DOLLAR then 0 else 1)
    ∧ (r.fail_reasons.count "volume" =
        if QUALIFIED_MIN_DOLLAR_24H ≤ r.dollar_24h then 0 else 1)
    ∧ (r.fail_reasons.count "spread" =
        if r.spread_pct ≤ QUALIFIED_MAX_SPREAD_PCT then 0 else 1)
    ∧ (r.fail_reasons.count "expiry" = if expiringPred r.hours_left then 0 else 1)
    ∧ (¬ r.dollar_rank ≤ QUALIFIED_TOP_N_DOLLAR →
        QUALIFIED_MIN_DOLLAR_24H ≤ r.dollar_24h →
        r.spread_pct ≤ QUALIFIED_MAX_SPREAD_PCT → expiringPred r.hours_left →
        r.fail_reasons = ["rank"])
    ∧ (r.dollar_rank ≤ QUALIFIED_TOP_N_DOLLAR →
        ¬ QUALIFIED_MIN_DOLLAR_24H ≤ r.dollar_24h →
        r.spread_pct ≤ QUALIFIED_MAX_SPREAD_PCT → expiringPred r.hours_left →
        r.fail_reasons = ["volume"])
    ∧ (r.dollar_rank ≤ QUALIFIED_TOP_N_DOLLAR →
        QUALIFIED_MIN_DOLLAR_24H ≤ r.dollar_24h →
        ¬ r.spread_pct ≤ QUALIFIED_MAX_SPREAD_PCT → expiringPred r.hours_left →
        r.fail_reasons = ["spread"])
    ∧ (r.dollar_rank ≤ QUALIFIED_TOP_N_DOLLAR →
        QUALIFIED_MIN_DOLLAR_24H ≤ r.dollar_24h →
        r.spread_pct ≤ QUALIFIED_MAX_SPREAD_PCT → ¬ expiringPred r.hours_left →
        r.fail_reasons = ["expiry"]) := by
  rw [scan, mem_stableSortBy] at hr
  simp only [scanRanked, assignRanks, List.mem_map] at hr
  obtain ⟨r0, hr0, rfl⟩ := hr
  have ht : 0 < r0.tier := scanRecords_tier_pos _ _ _ _ _ _ _ hr0
  unfold qualifyRec
  simp only [if_neg (not_not_intro ht)]
  by_cases hA : dictLookup
      (rankMap (scanRecords minPrice prefixes minVolume topN now ms)) r0.ticker ≤
      QUALIFIED_TOP_N_DOLLAR <;>
  by_cases hB : QUALIFIED_MIN_DOLLAR_24H ≤ r0.dollar_24h <;>
  by_cases hC : r0.spread_pct ≤ QUALIFIED_MAX_SPREAD_PCT <;>
  by_cases hD : expiringPred r0.hours_left <;>
    simp [hA, hB, hC, hD, ht, expiring_bool_iff]

/-- C2 (witness): the qualification iff instantiated on the concrete record
`scan` produces for `mktB`. -/

theorem c2_qualification_witness :
    recB1.qualified = true ↔
      (0 < recB1.tier ∧ recB1.dollar_rank ≤ QUALIFIED_TOP_N_DOLLAR ∧
        QUALIFIED_MIN_DOLLAR_24H ≤ recB1.dollar_24h ∧
        recB1.spread_pct ≤ QUALIFIED_MAX_SPREAD_PCT ∧
        expiringPred recB1.hours_left) :=
  (c2_qualification 95 0 [] 10000 30 [mktB] recB1 (by
    have hs : scan 95 [] 10000 30 0 [mktB] = [recB1] := by
      norm_num [scan, scanRanked, scanRecords, assignRanks, rankMap, dictLookup,
        sortByDollarDesc, stableSortBy, stableInsert, scanRecOfMarket, prefixOk,
        qualifyRec, scanSortLe, hours_until_close, assign_tier, calc_spread_pct,
        round2, round_eq, mktB, recB1, QUALIFIED_MIN_DOLLAR_24H,
        QUALIFIED_MAX_SPREAD_PCT, QUALIFIED_TOP_N_DOLLAR, QUALIFIED_MAX_HOURS,
        List.filterMap_cons, List.filterMap_nil, List.lookup, List.enum,
        List.enumFrom, Int.fdiv]
    rw [hs]
    exact List.mem_singleton.mpr rfl)).1

theorem stableInsert_eq_takeWhile (le : α → α → Bool) (x : α) (l : List α) :
    stableInsert le x l =
      l.takeWhile (fun y => le y x) ++ x :: l.dropWhile (fun y => le y x) := by
  induction l with
  | nil => rfl
  | cons y ys ih =>
    by_cases h : le y x
    · simp [stableInsert, h, List.takeWhile_cons, List.dropWhile_cons, ih]
    · simp [stableInsert, h, List.takeWhile_cons, List.dropWhile_cons]

theorem mem_stableInsert (le : α → α → Bool) (x : α) (l : List α) (z : α) :
    z ∈ stableInsert le x l ↔ z = x ∨ z ∈ l := by
  rw [(stableInsert_perm le x l).mem_iff, List.mem_cons]

theorem takeWhile_length_sorted (x : Rec) (l : List Rec) (hs : DSortedRec l) :
    (l.takeWhile (fun y => dleRec y x)).length =
      l.countP (fun y => dleRec y x) := by
  induction l with
  | nil => rfl
  | cons y ys ih =>
    rcases List.pairwise_cons.mp hs with ⟨hy, hys⟩
    by_cases h : x.dollar_24h ≤ y.dollar_24h
    · have hd : dleRec y x = true := by simp [dleRec, h]
      simp [List.takeWhile_cons, List.countP_cons, hd, ih hys]
    · have hd : dleRec y x = false := by simp [dleRec, h]
      have hz : ys.countP (fun y => dleRec y x) = 0 := by
        refine List.countP_eq_zero.mpr ?_
        intro z hz
        simp only [dleRec, decide_eq_true_eq]
        intro hxz
        exact h (le_trans hxz (hy z hz))
      simp [List.takeWhile_cons, List.countP_cons, hd, hz]

theorem DSortedRec_stableInsert (x : Rec) (l : List Rec) (hs : DSortedRec l) :
    DSortedRec (stableInsert dleRec x l) := by
  induction l with
  | nil => simp [stableInsert, DSortedRec]
  | cons y ys ih =>
    rcases List.pairwise_cons.mp hs with ⟨hy, hys⟩
    by_cases h : x.dollar_24h ≤ y.dollar_24h
    · have : dleRec y x = true := by simp [dleRec, h]
      simp only [stableInsert, this, if_true]
      refine List.pairwise_cons.mpr ⟨?_, ih hys⟩
      intro z hz
      rcases (mem_stableInsert dleRec x ys z).mp hz with rfl | hz'
      · exact h
      · exact hy z hz'
    · have : dleRec y x = false := by simp [dleRec, h]
      simp only [stableInsert, this, if_false]
      refine List.pairwise_cons.mpr ⟨?_, hs⟩
      intro z hz
      rcases List.mem_cons.mp hz with rfl | hz'
      · exact le_of_not_le h
      · exact le_trans (hy z hz') (le_of_not_le h)

theorem length_stableInsert (le : α → α → Bool) (x : α) (l : List α) :
    (stableInsert le x l).length = l.length + 1 := by
  simpa using (stableInsert_perm le x l).length_eq

theorem stableInsert_get?_of_lt (x : Rec) (l : List Rec) (hs : DSortedRec l)
    (j : Nat) (hj : j < l.countP (fun y => dleRec y x)) :
    (stableInsert dleRec x l).get? j = l.get? j := by
  rw [stableInsert_eq_takeWhile]
  have htw : (l.takeWhile (fun y => dleRec y x)).length =
      l.countP (fun y => dleRec y x) := takeWhile_length_sorted x l hs
  rw [List.get?_append (by omega)]
  conv_rhs =>
    rw [show l = l.takeWhile (fun y => dleRec y x) ++ l.dropWhile (fun y => dleRec y x)
      from (List.takeWhile_append_dropWhile _ _).symm]
  rw [List.get?_append (by omega)]

theorem stableInsert_get?_self (x : Rec) (l : List Rec) (hs : DSortedRec l) :
    (stableInsert dleRec x l).get? (l.countP (fun y => dleRec y x)) = some x := by
  rw [stableInsert_eq_takeWhile]
  have htw : (l.takeWhile (fun y => dleRec y x)).length =
      l.countP (fun y => dleRec y x) := takeWhile_length_sorted x l hs
  rw [List.get?_append_right (by omega)]
  simp [htw]

theorem stableInsert_get?_of_ge (x : Rec) (l : List Rec) (hs : DSortedRec l)
    (j : Nat) (hk : l.countP (fun y => dleRec y x) ≤ j) :
    (stableInsert dleRec x l).get? (j + 1) = l.get? j := by
  rw [stableInsert_eq_takeWhile]
  have htw : (l.takeWhile (fun y => dleRec y x)).length =
      l.countP (fun y => dleRec y x) := takeWhile_length_sorted x l hs
  rw [List.get?_append_right (by omega)]
  conv_rhs =>
    rw [show l = l.takeWhile (fun y => dleRec y x) ++ l.dropWhile (fun y => dleRec y x)
      from (List.takeWhile_append_dropWhile _ _).symm]
  rw [List.get?_append_right (by omega)]
  have harith : j + 1 - (l.takeWhile (fun y => dleRec y x)).length =
      (j - (l.takeWhile (fun y => dleRec y x)).length) + 1 := by omega
  simp only [harith, List.get?_cons_succ]

theorem sortByDollarDesc_append (l : List Rec) (x : Rec) :
    sortByDollarDesc (l ++ [x]) = stableInsert dleRec x (sortByDollarDesc l) := by
  simp [sortByDollarDesc, stableSortBy, List.foldl_append]

theorem sortByDollarDesc_sorted (l : List Rec) : DSortedRec (sortByDollarDesc l) := by
  induction l using List.reverseRecOn with
  | nil => simp [sortByDollarDesc, stableSortBy, DSortedRec]
  | append_singleton l x ih =>
    rw [sortByDollarDesc_append]
    exact DSortedRec_stableInsert x _ ih

theorem length_sortByDollarDesc (l : List Rec) :
    (sortByDollarDesc l).length = l.length :=
  (stableSortBy_perm dleRec l).length_eq

theorem countP_add_disjoint (p q : α → Bool) (l : List α)
    (h : ∀ a ∈ l, ¬(p a = true ∧ q a = true)) :
    l.countP p + l.countP q = l.countP (fun a => p a || q a) := by
  induction l with
  | nil => simp
  | cons a t ih =>
    have ht : ∀ b ∈ t, ¬(p b = true ∧ q b = true) :=
      fun b hb => h b (List.mem_cons_of_mem a hb)
    by_cases hp : p a <;> by_cases hq : q a
    · exact absurd ⟨hp, hq⟩ (h a (List.mem_cons_self a t))
    · simp only [List.countP_cons, hp, hq, ← ih ht]
      simp
      omega
    · simp only [List.countP_cons, hp, hq, ← ih ht]
      simp
      omega
    · simp only [List.countP_cons, hp, hq, ← ih ht]
      simp

theorem countP_sortByDollarDesc_dle (l : List Rec) (x : Rec) :
    (sortByDollarDesc l).countP (fun y => dleRec y x) =
      (l.map (fun r => r.dollar_24h)).countP
        (fun k => decide (x.dollar_24h ≤ k)) := by
  rw [sortByDollarDesc, (stableSortBy_perm dleRec l).countP_eq, List.countP_map]
  rfl

theorem countP_lt_add_eq (x : Int) (keys : List Int) :
    keys.countP (fun k => decide (x < k)) + keys.countP (fun k => decide (k = x)) =
      keys.countP (fun k => decide (x ≤ k)) := by
  rw [countP_add_disjoint _ _ _ (by
    intro a ha h
    simp only [decide_eq_true_eq] at h
    omega)]
  refine List.countP_congr ?_
  intro a ha
  by_cases h1 : x < a <;> by_cases h2 : a = x <;> simp [h1, h2] <;> omega

theorem countP_le_posRank (x : Int) (keys : List Int) (i : Nat)
    (hxi : keys.getD i 0 < x) :
    keys.countP (fun k => decide (x ≤ k)) ≤ posRank keys i := by
  unfold posRank
  refine le_trans (List.countP_mono_left ?_) (Nat.le_add_right _ _)
  intro a ha h
  simp only [decide_eq_true_eq] at h ⊢
  omega

theorem posRank_lt_countP_le (x : Int) (keys : List Int) (i : Nat)
    (hi : i < keys.length) (hxi : x ≤ keys.getD i 0) :
    posRank keys i < keys.countP (fun k => decide (x ≤ k)) := by
  unfold posRank
  have h2 : keys.drop i = keys.get ⟨i, hi⟩ :: keys.drop (i + 1) :=
    List.drop_eq_get_cons hi
  have h3 : keys.getD i 0 = keys.get ⟨i, hi⟩ := List.getD_eq_get keys 0 hi
  have hsplit : keys = keys.take i ++ keys.getD i 0 :: keys.drop (i + 1) := by
    rw [h3, ← h2, List.take_append_drop]
  set ki := keys.getD i 0
  set A := keys.take i
  set D := keys.drop (i + 1)
  have e1 : keys.countP (fun k => decide (x ≤ k)) =
      A.countP (fun k => decide (x ≤ k)) +
        (D.countP (fun k => decide (x ≤ k)) + 1) := by
    conv_lhs => rw [hsplit]
    rw [List.countP_append, List.countP_cons]
    simp [hxi]
  have e2 : keys.countP (fun k => decide (ki < k)) =
      A.countP (fun k => decide (ki < k)) + D.countP (fun k => decide (ki < k)) := by
    conv_lhs => rw [hsplit]
    rw [List.countP_append, List.countP_cons]
    simp
  have e3 : A.countP (fun k => decide (ki < k)) + A.countP (fun k => decide (k = ki)) =
      A.countP (fun k => decide (ki < k) || decide (k = ki)) :=
    countP_add_disjoint _ _ _ (by
      intro a ha h
      obtain ⟨hl, he⟩ := h
      simp only [decide_eq_true_eq] at hl he
      omega)
  have i4 : A.countP (fun k => decide (ki < k) || decide (k = ki)) ≤
      A.countP (fun k => decide (x ≤ k)) := by
    refine List.countP_mono_left ?_
    intro a ha h
    simp only [Bool.or_eq_true, decide_eq_true_eq] at h ⊢
    omega
  have i5 : D.countP (fun k => decide (ki < k)) ≤
      D.countP (fun k => decide (x ≤ k)) := by
    refine List.countP_mono_left ?_
    intro a ha h
    simp only [decide_eq_true_eq] at h ⊢
    omega
  omega

theorem posRank_append_lt (keys : List Int) (v : Int) (i : Nat)
    (hi : i < keys.length) :
    posRank (keys ++ [v]) i =
      posRank keys i + (if keys.getD i 0 < v then 1 else 0) := by
  unfold posRank
  have hgd : (keys ++ [v]).getD i 0 = keys.getD i 0 := by
    rw [List.getD_eq_get?, List.getD_eq_get?, List.get?_append hi]
  rw [hgd, List.countP_append, List.take_append_of_le_length (le_of_lt hi)]
  by_cases hv : keys.getD i 0 < v <;>
    simp [List.countP_cons, hv] <;> omega

theorem posRank_append_self (keys : List Int) (v : Int) :
    posRank (keys ++ [v]) keys.length = keys.countP (fun k => decide (v ≤ k)) := by
  unfold posRank
  have hgd : (keys ++ [v]).getD keys.length 0 = v := by
    rw [List.getD_eq_get?, List.get?_concat_length]
    rfl
  rw [hgd, List.countP_append, List.take_left]
  have hsum := countP_lt_add_eq v keys
  simp only [List.countP_cons, List.countP_nil, decide_eq_true_eq, if_neg (lt_irrefl v)]
  omega

theorem sortByDollarDesc_get?_posRank (l : List Rec) :
    ∀ i : Nat, i < l.length →
      (sortByDollarDesc l).get? (posRank (l.map (fun r => r.dollar_24h)) i) =
        l.get? i := by
  induction l using List.reverseRecOn with
  | nil =>
    intro i hi
    simp at hi
  | append_singleton l x ih =>
    intro i hi
    rw [sortByDollarDesc_append]
    have hkl : (l.map (fun r => r.dollar_24h)).length = l.length :=
      List.length_map _ _
    rw [List.map_append]
    simp only [List.map_cons, List.map_nil]
    by_cases hil : i < l.length
    · rw [posRank_append_lt _ _ _ (by omega)]
      by_cases hlt : (l.map (fun r => r.dollar_24h)).getD i 0 < x.dollar_24h
      · rw [if_pos hlt]
        have hk : (sortByDollarDesc l).countP (fun y => dleRec y x) ≤
            posRank (l.map (fun r => r.dollar_24h)) i := by
          rw [countP_sortByDollarDesc_dle]
          exact countP_le_posRank _ _ _ hlt
        rw [stableInsert_get?_of_ge x _ (sortByDollarDesc_sorted l) _ hk]
        rw [ih i hil, List.get?_append hil]
      · rw [if_neg hlt, Nat.add_zero]
        have hpos : posRank (l.map (fun r => r.dollar_24h)) i <
            (sortByDollarDesc l).countP (fun y => dleRec y x) := by
          rw [countP_sortByDollarDesc_dle]
          exact posRank_lt_countP_le _ _ _ (by omega) (not_lt.mp hlt)
        rw [stableInsert_get?_of_lt x _ (sortByDollarDesc_sorted l) _ hpos]
        rw [ih i hil, List.get?_append hil]
    · have hieq : i = l.length := by
        have hlen : (l ++ [x]).length = l.length + 1 := by simp
        omega
      subst hieq
      have hps := posRank_append_self (l.map (fun r => r.dollar_24h)) x.dollar_24h
      rw [hkl] at hps
      rw [hps]
      have hsel := stableInsert_get?_self x _ (sortByDollarDesc_sorted l)
      rw [countP_sortByDollarDesc_dle] at hsel
      rw [hsel, List.get?_concat_length]

theorem lookup_of_nodup_keys (l : List (String × Nat))
    (hnd : (l.map Prod.fst).Nodup) (k : String) (v : Nat) (hmem : (k, v) ∈ l) :
    l.lookup k = some v := by
  induction l with
  | nil => cases hmem
  | cons p t ih =>
    rw [List.map_cons] at hnd
    have hnd2 := List.nodup_cons.mp hnd
    rcases List.mem_cons.mp hmem with heq | hmem2
    · cases heq.symm
      simp [List.lookup]
    · have hkmem : k ∈ t.map Prod.fst := List.mem_map.mpr ⟨(k, v), hmem2, rfl⟩
      have hk : (k == p.1) = false := by
        refine beq_eq_false_iff_ne.mpr ?_
        intro he
        exact hnd2.1 (he ▸ hkmem)
      simp only [List.lookup, hk]
      exact ih hnd2.2 hmem2

theorem dictLookup_eq (m : List (String × Nat)) (hnd : (m.map Prod.fst).Nodup)
    (k : String) (v : Nat) (hmem : (k, v) ∈ m) : dictLookup m k = v := by
  unfold dictLookup
  rw [lookup_of_nodup_keys m.reverse
    (by rw [List.map_reverse]; exact List.nodup_reverse.mpr hnd) k v
    (List.mem_reverse.mpr hmem)]

theorem rankMap_keys (rs : List Rec) :
    (rankMap rs).map Prod.fst = (sortByDollarDesc rs).map (fun r => r.ticker) := by
  unfold rankMap
  rw [List.map_map]
  rw [show ((fun p : String × Nat => p.1) ∘ fun ir : Nat × Rec => (ir.2.ticker, ir.1 + 1))
    = (fun r : Rec => r.ticker) ∘ Prod.snd from rfl]
  rw [← List.map_map, List.enum_map_snd]

theorem rankMap_mem (rs : List Rec) (j : Nat) (r : Rec)
    (hr : (sortByDollarDesc rs).get? j = some r) :
    (r.ticker, j + 1) ∈ rankMap rs := by
  unfold rankMap
  refine List.mem_map.mpr ⟨(j, r), ?_, rfl⟩
  exact List.mem_enum_iff_get?.mpr hr

theorem assignRanks_get? (rs : List Rec) (i : Nat) :
    (assignRanks rs).get? i =
      (rs.get? i).map (fun r => qualifyRec (dictLookup (rankMap rs) r.ticker) r) := by
  simp [assignRanks, List.get?_map]

theorem qualifyRec_dollar_rank (k : Nat) (r : Rec) :
    (qualifyRec k r).dollar_rank = k := by
  unfold qualifyRec
  split <;> rfl

/-- C6: when the scanned records carry distinct tickers (tickers are market
ids), the rank attached to the record at input position `i` is exactly one
plus the number of records ranked before it — those with a strictly larger
24h dollar volume, plus the earlier ones (stable input order) with an equal
volume.  Hence `dollar_rank` is the dense 1..N positional ranking of the
stable dollar-volume-descending sort of the candidate records (the rank
map is built from the filtered records, not the raw quotes), and the final
`scan` output is a permutation of these ranked records. -/

theorem c6_dollar_rank (minPrice now : Int) (prefixes : List String)
    (minVolume topN : Nat) (ms : List Market)
    (hnd : ((scanRecords minPrice prefixes minVolume topN now ms).map
        (fun r => r.ticker)).Nodup)
    (i : Nat)
    (hi : i < (scanRecords minPrice prefixes minVolume topN now ms).length) :
    (∃ r, (scanRanked minPrice prefixes minVolume topN now ms).get? i = some r ∧
        r.dollar_rank =
          posRank ((scanRecords minPrice prefixes minVolume topN now ms).map
            (fun r => r.dollar_24h)) i + 1)
    ∧ List.Perm (scan minPrice prefixes minVolume topN now ms)
        (scanRanked minPrice prefixes minVolume topN now ms) := by
  constructor
  · set rs := scanRecords minPrice prefixes minVolume topN now ms with hrs
    obtain ⟨r0, hr0⟩ : ∃ r0, rs.get? i = some r0 :=
      ⟨rs.get ⟨i, hi⟩, List.get?_eq_get hi⟩
    refine ⟨qualifyRec (dictLookup (rankMap rs) r0.ticker) r0, ?_, ?_⟩
    · rw [scanRanked, ← hrs, assignRanks_get?, hr0]
      rfl
    · rw [qualifyRec_dollar_rank]
      set pos := posRank (rs.map (fun r => r.dollar_24h)) i with hposdef
      have hsort := sortByDollarDesc_get?_posRank rs i hi
      rw [hr0, ← hposdef] at hsort
      have hmem : (r0.ticker, pos + 1) ∈ rankMap rs := rankMap_mem rs pos r0 hsort
      have hndm : ((rankMap rs).map Prod.fst).Nodup := by
        rw [rankMap_keys]
        have hperm : List.Perm ((sortByDollarDesc rs).map (fun r => r.ticker))
            (rs.map (fun r => r.ticker)) := (stableSortBy_perm dleRec rs).map _
        exact hperm.nodup_iff.mpr hnd
      exact dictLookup_eq _ hndm _ _ hmem
  · exact stableSortBy_perm scanSortLe _

/-- C6 (witness): the rank equation instantiated at position 1 of a
two-record scan with a dollar-volume tie. -/

theorem c6_dollar_rank_witness :
    (∃ r, (scanRanked 95 [] 10000 30 0 [mktT1, mktT2]).get? 1 = some r ∧
        r.dollar_rank =
          posRank ((scanRecords 95 [] 10000 30 0 [mktT1, mktT2]).map
            (fun r => r.dollar_24h)) 1 + 1)
    ∧ List.Perm (scan 95 [] 10000 30 0 [mktT1, mktT2])
        (scanRanked 95 [] 10000 30 0 [mktT1, mktT2]) :=
  c6_dollar_rank 95 0 [] 10000 30 [mktT1, mktT2] (by decide) 1 (by decide)
